import Mathlib

/-!
Verification development for the `pt_access` package
(`src/pt_access/gini.py` and `src/pt_access/coordinate.py`).

The Python modules are shallowly embedded here:

* Python `float` arithmetic in the equity module is modelled by exact
  rationals (`ℚ`); Python's raising `/` is modelled by `pydiv`, which
  returns `Except` and fails exactly when the denominator is zero.
* A CSV string cell from columns 3..6 of the input table is modelled by
  `Cell`, which records the only two observations the code makes of such
  a cell: whether it is the literal string `"0"` (the `row[i] != '0'`
  tests) and the result of Python `int()` on it.  `Cell.num z` stands for
  any literal other than `"0"` that parses to `z` (such as `"5"`, `"00"`
  or `"-0"`); `Cell.bad` stands for a literal on which `int()` raises.
  The population cell (column 2) is only ever passed to `float()`, so it
  is carried directly as its parsed value.
* The coordinate module's transcendental calls (`math.sin`, `math.cos`,
  `math.sqrt`) are abstracted into a `MathOracle` parameter; every
  theorem about the module is proved for an arbitrary oracle.  IEEE
  special values are modelled by `PFloat` so that the behaviour of the
  batch converter on `inf`/`nan` cells is captured.
-/

/-! ### Cells of the equity input table -/

/-- A CSV cell from the count/level columns of the equity input table,
abstracted to the two observations `gini.py` makes of it: equality with
the literal string `"0"`, and the value of Python `int()` on it.
`lit0` is the literal `"0"`; `num z` is any other literal that parses to
the integer `z` (e.g. `"3"`, `"00"`, `"-0"`); `bad` fails to parse. -/
inductive Cell where
  | lit0 : Cell
  | num : ℤ → Cell
  | bad : Cell
deriving DecidableEq

/-- Python `int()` applied to a cell: raises `ValueError` on a literal
that does not parse. -/
def pyInt : Cell → Except String ℤ
  | Cell.lit0 => Except.ok 0
  | Cell.num z => Except.ok z
  | Cell.bad => Except.error "ValueError"

/-- The test `row[i] != '0'` of `gini.py` (string comparison with the
literal `"0"`). -/
def strNe0 (c : Cell) : Bool := c ≠ Cell.lit0

/-- One data row of the equity input table (`gini.py` indexes the row
positionally): `population` is column 2, already parsed by `float()`
(the cells studied here are well-formed numbers); `bus`, `rail`, `tram`
are columns 3..5 and `level` is column 6 (the gather / service level). -/
structure RawRow where
  population : ℚ
  bus : Cell
  rail : Cell
  tram : Cell
  level : Cell
deriving DecidableEq

/-- Decidable equality of `Except` results, for closed evaluations. -/
instance {ε α : Type} [DecidableEq ε] [DecidableEq α] : DecidableEq (Except ε α) :=
  fun a b =>
    match a, b with
    | Except.ok x, Except.ok y =>
      if h : x = y then Decidable.isTrue (by rw [h])
      else Decidable.isFalse (fun he => h (Except.ok.inj he))
    | Except.error x, Except.error y =>
      if h : x = y then Decidable.isTrue (by rw [h])
      else Decidable.isFalse (fun he => h (Except.error.inj he))
    | Except.ok _, Except.error _ => Decidable.isFalse (fun he => Except.noConfusion he)
    | Except.error _, Except.ok _ => Decidable.isFalse (fun he => Except.noConfusion he)

/-- Python's raising float division: `a / b` raises `ZeroDivisionError`
when `b = 0`. -/
def pydiv (a b : ℚ) : Except String ℚ :=
  if b = 0 then Except.error "ZeroDivisionError" else Except.ok (a / b)

/-- Round half to even at the fourth decimal digit, the exact-arithmetic
model of Python's `round(x, 4)`. -/
def pyRound4 (x : ℚ) : ℚ :=
  (if x * 10000 - ⌊x * 10000⌋ < 1/2 then (⌊x * 10000⌋ : ℚ)
   else if 1/2 < x * 10000 - ⌊x * 10000⌋ then (⌊x * 10000⌋ : ℚ) + 1
   else if Even ⌊x * 10000⌋ then (⌊x * 10000⌋ : ℚ) else (⌊x * 10000⌋ : ℚ) + 1) / 10000

/-! ### `GiniCalculator.calculate_basic_stats` (gini.py lines 24-62) -/

/-- The accumulators of the statistics loop of `calculate_basic_stats`
(gini.py lines 34-35). -/
structure StatsAcc where
  popu_all : ℚ
  popu_valid : ℚ
  total_gather : ℤ
  bus_count : ℤ
  railway_count : ℤ
  tram_count : ℤ
deriving DecidableEq

/-- One iteration of the statistics loop (gini.py lines 37-47). -/
def statsStep (acc : StatsAcc) (r : RawRow) : Except String StatsAcc := do
  let popu_all := acc.popu_all + r.population
  if strNe0 r.level then
    let g ← pyInt r.level
    let popu_valid := acc.popu_valid + r.population
    let total_gather := acc.total_gather + g
    let bus_count ← if strNe0 r.bus then do
        let b ← pyInt r.bus
        pure (acc.bus_count + b)
      else pure acc.bus_count
    let railway_count ← if strNe0 r.rail then do
        let b ← pyInt r.rail
        pure (acc.railway_count + b)
      else pure acc.railway_count
    let tram_count ← if strNe0 r.tram then do
        let b ← pyInt r.tram
        pure (acc.tram_count + b)
      else pure acc.tram_count
    pure ⟨popu_all, popu_valid, total_gather, bus_count, railway_count, tram_count⟩
  else
    pure ⟨popu_all, acc.popu_valid, acc.total_gather, acc.bus_count,
      acc.railway_count, acc.tram_count⟩

/-- The statistics loop of `calculate_basic_stats` (gini.py lines 34-47). -/
def statsLoop (data : List RawRow) : Except String StatsAcc :=
  data.foldlM statsStep ⟨0, 0, 0, 0, 0, 0⟩

/-- The result dictionary of `calculate_basic_stats` (gini.py lines 55-62). -/
structure Stats where
  total_population : ℚ
  valid_population : ℚ
  population_ratio : ℚ
  bus_ratio : ℚ
  railway_ratio : ℚ
  tram_ratio : ℚ
deriving DecidableEq

/-- `GiniCalculator.calculate_basic_stats` (gini.py lines 24-62): the
statistics loop followed by the guarded ratio computations and the
4-digit rounding of the returned dictionary (lines 49-62). -/
def calculate_basic_stats (data : List RawRow) : Except String Stats := do
  let acc ← statsLoop data
  let popu_ratio := if acc.popu_all > 0 then acc.popu_valid / acc.popu_all else 0
  let bus_ratio := if (acc.total_gather : ℚ) > 0
    then (acc.bus_count : ℚ) / (acc.total_gather : ℚ) else 0
  let railway_ratio := if (acc.total_gather : ℚ) > 0
    then (acc.railway_count : ℚ) / (acc.total_gather : ℚ) else 0
  let tram_ratio := if (acc.total_gather : ℚ) > 0
    then (acc.tram_count : ℚ) / (acc.total_gather : ℚ) else 0
  pure ⟨pyRound4 acc.popu_all, pyRound4 acc.popu_valid, pyRound4 popu_ratio,
    pyRound4 bus_ratio, pyRound4 railway_ratio, pyRound4 tram_ratio⟩

/-! ### `GiniCalculator.prepare_gini_data` (gini.py lines 64-113) -/

/-- Update of the insertion-ordered dictionary `gather_dict`
(gini.py lines 81-84): a new key is appended, an existing key has the
population added in place. -/
def updateAssoc (d : List (ℤ × ℚ)) (k : ℤ) (p : ℚ) : List (ℤ × ℚ) :=
  match d with
  | [] => [(k, p)]
  | (k', v) :: rest =>
    if k' = k then (k', v + p) :: rest else (k', v) :: updateAssoc rest k p

/-- One iteration of the grouping loop of `prepare_gini_data`
(gini.py lines 76-84). -/
def gatherStep (d : List (ℤ × ℚ)) (r : RawRow) : Except String (List (ℤ × ℚ)) := do
  let gather_level ← pyInt r.level
  let population := r.population
  if gather_level ≠ 0 then
    pure (updateAssoc d gather_level population)
  else
    pure d

/-- The grouping loop of `prepare_gini_data` (gini.py lines 74-84):
groups rows by service level, skipping level 0, in first-encounter
order. -/
def gatherGroups (data : List RawRow) : Except String (List (ℤ × ℚ)) :=
  data.foldlM gatherStep []

/-- One row of the summary table built by `prepare_gini_data`
(gini.py lines 102-111): the seven columns of the `np.column_stack`. -/
structure SRow where
  id : ℕ
  level : ℤ
  population : ℚ
  weighted : ℚ
  pop_ratio : ℚ
  weight_ratio : ℚ
  ratio : ℚ
deriving DecidableEq

/-- Assemble the summary rows from the column lists
(gini.py lines 102-111, `np.column_stack`). -/
def mkRows : ℕ → List (ℤ × ℚ) → List ℚ → List ℚ → List ℚ → List SRow
  | i, (l, p) :: gs, pr :: prs, wr :: wrs, rr :: rrs =>
    ⟨i, l, p, p * l, pr, wr, rr⟩ :: mkRows (i + 1) gs prs wrs rrs
  | _, _, _, _, _ => []

/-- The table-building part of `prepare_gini_data`
(gini.py lines 86-113): totals, weighted values, the three ratio
columns (the unguarded divisions of lines 97-98 raise
`ZeroDivisionError` when their total is zero; the advantage ratio of
lines 99-100 is guarded by `p_ratio > 0`), and the stacked table. -/
def buildTable (gs : List (ℤ × ℚ)) : Except String (List SRow) := do
  let populations := gs.map (fun g => g.2)
  let total_population := populations.sum
  let weighted_values := gs.map (fun g => g.2 * (g.1 : ℚ))
  let total_weighted := weighted_values.sum
  let pop_ratios ← populations.mapM (fun pop => pydiv pop total_population)
  let weight_ratios ← weighted_values.mapM (fun w => pydiv w total_weighted)
  let weight_pop_ratios := (weight_ratios.zip pop_ratios).map
    (fun z => if z.2 > 0 then z.1 / z.2 else 0)
  pure (mkRows 1 gs pop_ratios weight_ratios weight_pop_ratios)

/-- `GiniCalculator.prepare_gini_data` (gini.py lines 64-113): grouping
followed by table building. -/
def prepare_gini_data (data : List RawRow) : Except String (List SRow) := do
  let gs ← gatherGroups data
  buildTable gs

/-! ### `GiniCalculator.calculate_gini_coefficient` (gini.py lines 115-170) -/

/-- The comparison used to sort the summary table by its seventh column
(`summary_table[:, 6].argsort()`, gini.py line 126): ascending advantage
ratio.  The Python sort is an unspecified-tie-order comparison sort; it
is modelled by a deterministic comparison sort over the same key. -/
def byRatio (a b : SRow) : Prop := a.ratio ≤ b.ratio

instance : DecidableRel byRatio :=
  fun a b => inferInstanceAs (Decidable (a.ratio ≤ b.ratio))

instance : IsTotal SRow byRatio := ⟨fun a b => le_total a.ratio b.ratio⟩

instance : IsTrans SRow byRatio := ⟨fun _ _ _ h h' => le_trans h h'⟩

/-- The cumulative-ratio lists of gini.py lines 129-134: partial sums
continuing from `acc`. -/
def cumFrom (acc : ℚ) : List ℚ → List ℚ
  | [] => []
  | x :: xs => (acc + x) :: cumFrom (acc + x) xs

/-- The tail of the Σ(Wi-1+Wi)·Pi loop (gini.py lines 149-155), entered
with the running cumulative weight `cw`: returns the remaining
cumulative sum and the remaining `calculations` entries. -/
def giniLoopRest (cw : ℚ) : List SRow → ℚ × List ℚ
  | [] => (0, [])
  | x :: rest =>
    let prev := cw
    let cumulative_weight := cw + x.weighted
    let calculation := (prev + cumulative_weight) * x.population
    let t := giniLoopRest cumulative_weight rest
    (calculation + t.1, calculation :: t.2)

/-- The Σ(Wi-1+Wi)·Pi loop (gini.py lines 142-155), with the `i == 0`
special case of lines 146-148. -/
def giniLoop : List SRow → ℚ × List ℚ
  | [] => (0, [])
  | x :: rest =>
    let cumulative_weight := x.weighted
    let calculation := cumulative_weight * x.population
    let t := giniLoopRest cumulative_weight rest
    (calculation + t.1, calculation :: t.2)

/-- The result dictionary of `calculate_gini_coefficient`
(gini.py lines 160-168). -/
structure GiniResults where
  gini_coefficient : ℚ
  cumulative_sum : ℚ
  pw_product : ℚ
  cum_pop_ratio : List ℚ
  cum_weight_ratio : List ℚ
  sorted_table : List SRow
  calculations : List ℚ
deriving DecidableEq

/-- `GiniCalculator.calculate_gini_coefficient` (gini.py lines 115-170):
sort by advantage ratio, cumulative ratio lists, totals, the
Σ(Wi-1+Wi)·Pi accumulation, and the guarded coefficient
`1 - S/(P·T) if P·T > 0 else 0` (line 158; the division is only
evaluated when `P·T > 0`, hence never by zero). -/
def calculate_gini_coefficient (summary_table : List SRow) : ℚ × GiniResults :=
  let sorted_table := List.insertionSort byRatio summary_table
  let cum_pop_ratio := 0 :: cumFrom 0 (sorted_table.map (fun r => r.pop_ratio))
  let cum_weight_ratio := 0 :: cumFrom 0 (sorted_table.map (fun r => r.weight_ratio))
  let total_population := (sorted_table.map (fun r => r.population)).sum
  let total_weighted := (sorted_table.map (fun r => r.weighted)).sum
  let pw_product := total_population * total_weighted
  let loop := giniLoop sorted_table
  let cumulative_sum := loop.1
  let calculations := loop.2
  let gini_coefficient := if pw_product > 0 then 1 - cumulative_sum / pw_product else 0
  (gini_coefficient,
    ⟨pyRound4 gini_coefficient, pyRound4 cumulative_sum, pyRound4 pw_product,
      cum_pop_ratio, cum_weight_ratio, sorted_table, calculations⟩)

/-! ### `GiniCalculator.generate_gini_report` (gini.py lines 172-214) -/

/-- The full result of `generate_gini_report` (gini.py lines 208-212). -/
structure GiniReport where
  basic_statistics : Stats
  gini_coefficient : ℚ
  gini_details : GiniResults
deriving DecidableEq

/-- The storage visible to `generate_gini_report`: the parsed CSV lines
stored at each path (`none` when the file does not exist).  The header
line is the first element; it is discarded by the `next(csv_reader)`
of gini.py line 187. -/
def FileStore : Type := String → Option (List RawRow)

/-- `GiniCalculator.generate_gini_report` (gini.py lines 172-214): reads
and parses the CSV at `input_file` from the store (raising if the file
is missing, and `StopIteration` on an empty file at line 187), runs the
three computations on the parsed rows, and — when `output_file` is given
— writes the Excel report (`_export_to_excel`, modelled by recording the
written path).  Returns the result dictionary together with the list of
paths written. -/
def generate_gini_report (fs : FileStore) (input_file : String)
    (output_file : Option String) : Except String (GiniReport × List String) :=
  match fs input_file with
  | none => Except.error "FileNotFoundError"
  | some [] => Except.error "StopIteration"
  | some (_header :: data) => do
    let basic_stats ← calculate_basic_stats data
    let summary_table ← prepare_gini_data data
    let r := calculate_gini_coefficient summary_table
    let writes := match output_file with
      | some p => [p]
      | none => []
    pure (⟨basic_stats, r.1, r.2⟩, writes)

/-! ### `CoordinateConverter` (coordinate.py)

The transcendental library calls are abstracted into an oracle; every
theorem below holds for an arbitrary oracle, so nothing depends on the
numerical values of `sin`, `cos` or `sqrt`. -/

/-- The transcendental functions used by `coordinate.py` (`math.sin`,
`math.cos`, `math.sqrt`), abstracted as an oracle over the rational
model of floats. -/
structure MathOracle where
  sin : ℚ → ℚ
  cos : ℚ → ℚ
  sqrt : ℚ → ℚ

/-- `CoordinateConverter.PI` (coordinate.py line 22). -/
def cPI : ℚ := 3.1415926535897932384626

/-- `CoordinateConverter.A` (coordinate.py line 23). -/
def cA : ℚ := 6378245.0

/-- `CoordinateConverter.EE` (coordinate.py line 24). -/
def cEE : ℚ := 0.00669342162296594323

/-- `CoordinateConverter.transform_lat` (coordinate.py lines 30-49). -/
def transform_lat (m : MathOracle) (lng lat : ℚ) : ℚ :=
  let ret := -100.0 + 2.0 * lng + 3.0 * lat + 0.2 * lat * lat +
    0.1 * lng * lat + 0.2 * m.sqrt |lng|
  let ret := ret + (20.0 * m.sin (6.0 * lng * cPI) + 20.0 *
    m.sin (2.0 * lng * cPI)) * 2.0 / 3.0
  let ret := ret + (20.0 * m.sin (lat * cPI) + 40.0 *
    m.sin (lat / 3.0 * cPI)) * 2.0 / 3.0
  let ret := ret + (160.0 * m.sin (lat / 12.0 * cPI) + 320 *
    m.sin (lat * cPI / 30.0)) * 2.0 / 3.0
  ret

/-- `CoordinateConverter.transform_lng` (coordinate.py lines 51-70). -/
def transform_lng (m : MathOracle) (lng lat : ℚ) : ℚ :=
  let ret := 300.0 + lng + 2.0 * lat + 0.1 * lng * lng +
    0.1 * lng * lat + 0.1 * m.sqrt |lng|
  let ret := ret + (20.0 * m.sin (6.0 * lng * cPI) + 20.0 *
    m.sin (2.0 * lng * cPI)) * 2.0 / 3.0
  let ret := ret + (20.0 * m.sin (lng * cPI) + 40.0 *
    m.sin (lng / 3.0 * cPI)) * 2.0 / 3.0
  let ret := ret + (150.0 * m.sin (lng / 12.0 * cPI) + 300.0 *
    m.sin (lng / 30.0 * cPI)) * 2.0 / 3.0
  ret

/-- A Python float as seen by the coordinate module: a finite value
(modelled exactly by a rational), an infinity, or `nan`. -/
inductive PFloat where
  | fin : ℚ → PFloat
  | inf : PFloat
  | ninf : PFloat
  | nan : PFloat
deriving DecidableEq

/-- IEEE `<` on the float model: every comparison with `nan` is false. -/
def PFloat.lt : PFloat → PFloat → Bool
  | PFloat.fin a, PFloat.fin b => a < b
  | PFloat.fin _, PFloat.inf => true
  | PFloat.ninf, PFloat.fin _ => true
  | PFloat.ninf, PFloat.inf => true
  | _, _ => false

/-- `CoordinateConverter.is_out_of_china` (coordinate.py lines 72-87).
The bounds are the source's decimal literals `72.004`, `137.8347`,
`0.8293`, `55.8271`, written as explicit fractions. -/
def is_out_of_china (lng lat : PFloat) : Bool :=
  if PFloat.lt lng (PFloat.fin (mkRat 72004 1000)) ||
      PFloat.lt (PFloat.fin (mkRat 1378347 10000)) lng then
    true
  else if PFloat.lt lat (PFloat.fin (mkRat 8293 10000)) ||
      PFloat.lt (PFloat.fin (mkRat 558271 10000)) lat then
    true
  else
    false

/-- The in-region body of `CoordinateConverter.gcj02_to_wgs84`
(coordinate.py lines 104-123) on finite coordinates: offsets, ellipsoid
rescaling, and the double-subtraction correction
`lng * 2 - mglng`, `lat * 2 - mglat`.  Rational division is total; the
denominators involve only the fixed ellipsoid constants and oracle
values, and Python's raising division is immaterial to the properties
proved about this body. -/
def gcj02_core (m : MathOracle) (lng lat : ℚ) : ℚ × ℚ :=
  let dlat := transform_lat m (lng - 105.0) (lat - 35.0)
  let dlng := transform_lng m (lng - 105.0) (lat - 35.0)
  let radlat := lat / 180.0 * cPI
  let magic := m.sin radlat
  let magic := 1 - cEE * magic * magic
  let sqrtmagic := m.sqrt magic
  let dlat := (dlat * 180.0) / ((cA * (1 - cEE)) / (magic * sqrtmagic) * cPI)
  let dlng := (dlng * 180.0) / (cA / sqrtmagic * m.cos radlat * cPI)
  let mglat := lat + dlat
  let mglng := lng + dlng
  (lng * 2 - mglng, lat * 2 - mglat)

/-- Modelled from the spec (§4.1): the same correction written by direct
subtraction, `corrected = original − offset`, for comparison with the
double-subtraction form of the source (refinement claim). -/
def gcj02_core_direct (m : MathOracle) (lng lat : ℚ) : ℚ × ℚ :=
  let dlat := transform_lat m (lng - 105.0) (lat - 35.0)
  let dlng := transform_lng m (lng - 105.0) (lat - 35.0)
  let radlat := lat / 180.0 * cPI
  let magic := m.sin radlat
  let magic := 1 - cEE * magic * magic
  let sqrtmagic := m.sqrt magic
  let dlat := (dlat * 180.0) / ((cA * (1 - cEE)) / (magic * sqrtmagic) * cPI)
  let dlng := (dlng * 180.0) / (cA / sqrtmagic * m.cos radlat * cPI)
  (lng - dlng, lat - dlat)

/-- `CoordinateConverter.gcj02_to_wgs84` (coordinate.py lines 89-123) on
the float model: out-of-region points are returned unchanged
(lines 100-102); otherwise the finite in-region body runs.  A `nan`
coordinate passes the out-of-region test (IEEE comparisons with `nan`
are false) and then poisons every arithmetic step, so both outputs are
`nan`; infinities never reach the body (they always fail the region
test). -/
def gcj02_to_wgs84 (m : MathOracle) (lng lat : PFloat) : PFloat × PFloat :=
  if is_out_of_china lng lat then
    (lng, lat)
  else
    match lng, lat with
    | PFloat.fin a, PFloat.fin b =>
      let r := gcj02_core m a b
      (PFloat.fin r.1, PFloat.fin r.2)
    | _, _ => (PFloat.nan, PFloat.nan)

/-! ### `CoordinateConverter.batch_convert_gcj02_to_wgs84`
(coordinate.py lines 125-187) -/

/-- One row of the coordinate batch: the longitude and latitude cells
after Python `float()` — `none` when `float()` raises
(`ValueError`/`TypeError`), `some v` when it yields the float `v`
(which may be an infinity or `nan`: `float` accepts `"inf"`, `"nan"`
and friends). -/
structure BatchRow where
  lngCell : Option PFloat
  latCell : Option PFloat
deriving DecidableEq

/-- The per-row try-block of the batch loop (coordinate.py
lines 161-171): both cells must parse, then the point is converted;
a parse failure yields the `(None, None)` marker for that row. -/
def convert_row (m : MathOracle) (r : BatchRow) : Option (PFloat × PFloat) :=
  match r.lngCell, r.latCell with
  | some lng, some lat => some (gcj02_to_wgs84 m lng lat)
  | _, _ => none

/-- The batch loop of `batch_convert_gcj02_to_wgs84` (coordinate.py
lines 156-177): the list of corrected coordinate pairs (`none` = the
`(None, None)` marker), in input order, together with
`converted_count`. -/
def batch_convert (m : MathOracle) : List BatchRow → List (Option (PFloat × PFloat)) × ℕ
  | [] => ([], 0)
  | r :: rest =>
    let c := convert_row m r
    let t := batch_convert m rest
    (c :: t.1, (if c.isSome then 1 else 0) + t.2)

/-- A malformed batch row: one of its coordinate cells fails Python
`float()` (coordinate.py line 169's caught exceptions). -/
def malformedRow (r : BatchRow) : Bool :=
  !(r.lngCell.isSome && r.latCell.isSome)

/-! ### Canonical unit records and concrete inputs -/

/-- An equity analysis unit as described by the data model: population
and per-mode counts plus the composite service level (`0` = not
served). -/
structure AnalysisUnit where
  population : ℚ
  bus : ℕ
  rail : ℕ
  tram : ℕ
  service_level : ℕ
deriving DecidableEq

/-- The canonical CSV rendering of a nonnegative count: `0` is written
as the literal `"0"`, anything else as its decimal literal. -/
def cellOf (n : ℕ) : Cell :=
  if n = 0 then Cell.lit0 else Cell.num n

/-- The canonical input row of an analysis unit. -/
def toRow (u : AnalysisUnit) : RawRow :=
  ⟨u.population, cellOf u.bus, cellOf u.rail, cellOf u.tram, cellOf u.service_level⟩

/-- A coordinate cell that `float()` interpreted as a *finite* number
(the wording of the batch-isolation claim). -/
def finiteCell : Option PFloat → Bool
  | some (PFloat.fin _) => true
  | _ => false

/-- A concrete transcendental oracle for closed evaluations (its values
are irrelevant to every property proved here). -/
def idOracle : MathOracle := ⟨fun q => q, fun q => q, fun q => q⟩

/-- A two-row coordinate batch: a finite out-of-region point followed by
a row whose longitude cell parses to `inf`. -/
def rowsInf : List BatchRow :=
  [⟨some (PFloat.fin 200), some (PFloat.fin 40)⟩,
   ⟨some PFloat.inf, some (PFloat.fin 40)⟩]

/-- A header line (its contents are discarded by the report reader). -/
def rowHeader : RawRow := ⟨0, Cell.lit0, Cell.lit0, Cell.lit0, Cell.lit0⟩

/-- A served unit row: population 100, service level 1. -/
def rowUnit : RawRow := ⟨100, Cell.lit0, Cell.lit0, Cell.lit0, Cell.num 1⟩

/-- A zero-population row with a positive service level. -/
def rowZeroPop : RawRow := ⟨0, Cell.lit0, Cell.lit0, Cell.lit0, Cell.num 1⟩

/-- A file store whose every file holds only a header line. -/
def fsEmpty : FileStore := fun _ => some [rowHeader]

/-- A file store whose every file holds a header line and one served
unit row. -/
def fsOne : FileStore := fun _ => some [rowHeader, rowUnit]

/-! ### Theorems -/

/-- Reduction of an `Except` bind on a success value. -/
theorem exc_bind_ok {ε α β : Type} (a : α) (f : α → Except ε β) :
    (Except.ok a : Except ε α) >>= f = f a := rfl

/-- Reduction of an `Except` bind on an error value. -/
theorem exc_bind_error {ε α β : Type} (e : ε) (f : α → Except ε β) :
    (Except.error e : Except ε α) >>= f = Except.error e := rfl

/-- `pure` on `Except` is `Except.ok`. -/
theorem exc_pure {ε α : Type} (a : α) : (pure a : Except ε α) = Except.ok a := rfl

/-- `pyRound4` fixes every rational that is an integer multiple of
`1/10000`. -/
theorem pyRound4_eq_self (x : ℚ) (n : ℤ) (h : x * 10000 = (n : ℚ)) :
    pyRound4 x = x := by
  unfold pyRound4
  rw [h, Int.floor_intCast]
  have h0 : (n : ℚ) - n = 0 := by ring
  rw [h0]
  norm_num
  rw [div_eq_iff (by norm_num : (10000 : ℚ) ≠ 0)]
  exact h.symm

/-- **C8**: for every in-region point (indeed for all inputs and every
transcendental oracle), the double-subtraction form
`corrected = original × 2 − (original + offset)` used by the source
computes exactly the direct subtraction `corrected = original − offset`
of the ellipsoid-rescaled offsets. -/
theorem correction_double_subtraction_eq_direct
    (m : MathOracle) (lng lat : ℚ) :
    gcj02_core m lng lat = gcj02_core_direct m lng lat := by
  simp only [gcj02_core, gcj02_core_direct, Prod.mk.injEq]
  constructor <;> ring

/-- **C4**: any point with longitude below 72.004 or above 137.8347, or
latitude below 0.8293 or above 55.8271, is returned exactly unchanged by
the conversion, for every oracle. -/
theorem convert_fail_open (m : MathOracle) (lng lat : PFloat)
    (h : PFloat.lt lng (PFloat.fin (mkRat 72004 1000)) = true ∨
         PFloat.lt (PFloat.fin (mkRat 1378347 10000)) lng = true ∨
         PFloat.lt lat (PFloat.fin (mkRat 8293 10000)) = true ∨
         PFloat.lt (PFloat.fin (mkRat 558271 10000)) lat = true) :
    gcj02_to_wgs84 m lng lat = (lng, lat) := by
  have hoc : is_out_of_china lng lat = true := by
    unfold is_out_of_china
    rcases h with h | h | h | h <;> simp [h]
  unfold gcj02_to_wgs84
  rw [hoc]
  simp

/-- Witness for `convert_fail_open` at a concrete out-of-region point. -/
theorem convert_fail_open_witness :
    gcj02_to_wgs84 idOracle (PFloat.fin 200) (PFloat.fin 40) =
      (PFloat.fin 200, PFloat.fin 40) :=
  convert_fail_open idOracle (PFloat.fin 200) (PFloat.fin 40)
    (Or.inr (Or.inl (by decide)))

/-- The per-row conversion yields the unavailable marker exactly on
malformed rows. -/
theorem convert_row_eq_none (m : MathOracle) (r : BatchRow) :
    convert_row m r = none ↔ malformedRow r = true := by
  rcases r with ⟨lngCell, latCell⟩
  rcases lngCell with _ | lng <;> rcases latCell with _ | lat <;>
    simp [convert_row, malformedRow]

/-- The batch loop is the per-row conversion mapped in order, with the
success count. -/
theorem batch_convert_eq (m : MathOracle) (rows : List BatchRow) :
    batch_convert m rows =
      (rows.map (convert_row m),
       rows.countP (fun r => (convert_row m r).isSome)) := by
  induction rows with
  | nil => rfl
  | cons r rest ih =>
    simp only [batch_convert, ih, List.map_cons, List.countP_cons]
    rcases h : convert_row m r with _ | v
    · simp [h]
    · simp [h]
      omega

/-- Success markers and malformedness are complementary. -/
theorem convert_row_isSome (m : MathOracle) (r : BatchRow) :
    (convert_row m r).isSome = !malformedRow r := by
  rcases r with ⟨lngCell, latCell⟩
  rcases lngCell with _ | lng <;> rcases latCell with _ | lat <;>
    simp [convert_row, malformedRow]

/-- **C3 (amended)**: for a batch with exactly one row on which the
float parse of a coordinate cell *fails* (the code's actual criterion —
not "cannot be interpreted as a finite number": cells parsing to
infinities or `nan` are counted as successes, see the counterexample),
the batch returns one output per row in input order, the unavailable
marker appears exactly at malformed rows, every well-formed row is
converted, and the success count is `N - 1`. -/
theorem batch_single_malformed (m : MathOracle) (rows : List BatchRow)
    (h1 : rows.countP malformedRow = 1) :
    (batch_convert m rows).1.length = rows.length ∧
    (batch_convert m rows).2 = rows.length - 1 ∧
    (∀ (i : ℕ) (r : BatchRow), rows[i]? = some r →
      ((batch_convert m rows).1[i]? = some none ↔ malformedRow r = true)) ∧
    (∀ (i : ℕ) (lng lat : PFloat), rows[i]? = some (BatchRow.mk (some lng) (some lat)) →
      (batch_convert m rows).1[i]? = some (some (gcj02_to_wgs84 m lng lat))) := by
  rw [batch_convert_eq]
  refine ⟨by simp, ?_, ?_, ?_⟩
  · have hfun : (fun r => (convert_row m r).isSome) =
        (fun r : BatchRow => !malformedRow r) :=
      funext (convert_row_isSome m)
    have hsum : ∀ l : List BatchRow,
        l.countP (fun r => !malformedRow r) + l.countP malformedRow = l.length := by
      intro l
      induction l with
      | nil => rfl
      | cons r rest ih =>
        rcases hm : malformedRow r <;> simp [List.countP_cons, hm] <;> omega
    rw [hfun]
    have := hsum rows
    omega
  · intro i r hr
    have hi : (rows.map (convert_row m))[i]? = some (convert_row m r) := by
      simp [List.getElem?_map, hr]
    simp only [hi, Option.some.injEq]
    constructor
    · intro he
      exact (convert_row_eq_none m r).1 he
    · intro hm
      exact (convert_row_eq_none m r).2 hm
  · intro i lng lat hr
    simp [List.getElem?_map, hr, convert_row]

/-- Witness for `batch_single_malformed` on a concrete two-row batch
whose second row has an unparseable longitude cell. -/
theorem batch_single_malformed_witness :
    (batch_convert idOracle
        [⟨some (PFloat.fin 200), some (PFloat.fin 40)⟩, ⟨none, some (PFloat.fin 40)⟩]).1.length = 2 ∧
    (batch_convert idOracle
        [⟨some (PFloat.fin 200), some (PFloat.fin 40)⟩, ⟨none, some (PFloat.fin 40)⟩]).2 = 1 := by
  have h := batch_single_malformed idOracle
    [⟨some (PFloat.fin 200), some (PFloat.fin 40)⟩, ⟨none, some (PFloat.fin 40)⟩]
    (by decide)
  exact ⟨h.1, h.2.1⟩

/-- **C3 (counterexample)**: in the batch `rowsInf` the second row's
longitude cell parses to `inf` — it cannot be interpreted as a *finite*
number — yet the code converts it (the point is out of region, so it is
returned unchanged) and reports 2 successes out of 2, not `N - 1 = 1`
with an unavailable marker. -/
theorem batch_inf_counterexample :
    finiteCell (some PFloat.inf) = false ∧
    (batch_convert idOracle rowsInf).2 = 2 ∧
    (batch_convert idOracle rowsInf).1 =
      [some (PFloat.fin 200, PFloat.fin 40), some (PFloat.inf, PFloat.fin 40)] := by
  refine ⟨rfl, ?_, ?_⟩ <;> decide

/-- **C10**: the Gini computation is deterministic — two runs on equal
summary tables (ties in `ratio` included: the embedded sort, like the
source's, is a fixed function of the table) return the identical
coefficient and the identical detail record. -/
theorem gini_deterministic (t1 t2 : List SRow) (h : t1 = t2) :
    calculate_gini_coefficient t1 = calculate_gini_coefficient t2 := by
  rw [h]

/-- Witness for `gini_deterministic` on a concrete table with a tie in
the sort key. -/
theorem gini_deterministic_witness :
    calculate_gini_coefficient
        [⟨1, 1, 100, 100, 1/2, 1/2, 1⟩, ⟨2, 2, 50, 100, 1/2, 1/2, 1⟩] =
      calculate_gini_coefficient
        [⟨1, 1, 100, 100, 1/2, 1/2, 1⟩, ⟨2, 2, 50, 100, 1/2, 1/2, 1⟩] :=
  gini_deterministic _ _ rfl

/-- Concrete evaluation: the basic statistics of the empty table. -/
theorem eval_stats_nil : calculate_basic_stats [] = Except.ok ⟨0, 0, 0, 0, 0, 0⟩ := by
  have h0 : pyRound4 0 = 0 := pyRound4_eq_self 0 0 (by norm_num)
  unfold calculate_basic_stats statsLoop
  rw [List.foldlM_nil]
  simp [exc_bind_ok, exc_pure, h0]

/-- Concrete evaluation: the statistics loop on the one-unit table. -/
theorem eval_statsLoop_one : statsLoop [rowUnit] = Except.ok ⟨100, 100, 1, 0, 0, 0⟩ := by
  unfold statsLoop
  rw [List.foldlM_cons]
  simp only [List.foldlM_nil]
  unfold statsStep rowUnit
  simp [strNe0, pyInt, exc_bind_ok, exc_pure]

/-- Concrete evaluation: the basic statistics of the one-unit table. -/
theorem eval_stats_one :
    calculate_basic_stats [rowUnit] = Except.ok ⟨100, 100, 1, 0, 0, 0⟩ := by
  have h0 : pyRound4 0 = 0 := pyRound4_eq_self 0 0 (by norm_num)
  have h1 : pyRound4 1 = 1 := pyRound4_eq_self 1 10000 (by norm_num)
  have h100 : pyRound4 100 = 100 := pyRound4_eq_self 100 1000000 (by norm_num)
  unfold calculate_basic_stats
  rw [eval_statsLoop_one, exc_bind_ok]
  norm_num [exc_pure, h0, h1, h100]

/-- Concrete evaluation: the summary table of the empty table. -/
theorem eval_prepare_nil : prepare_gini_data [] = Except.ok [] := by
  unfold prepare_gini_data gatherGroups
  rw [List.foldlM_nil]
  rw [exc_pure, exc_bind_ok]
  unfold buildTable
  simp [List.mapM_nil, List.mapM.loop, exc_bind_ok, exc_pure, mkRows]

/-- Concrete evaluation: the summary table of the one-unit table. -/
theorem eval_prepare_one :
    prepare_gini_data [rowUnit] = Except.ok [⟨1, 1, 100, 100, 1, 1, 1⟩] := by
  have hg : gatherGroups [rowUnit] = Except.ok [((1 : ℤ), (100 : ℚ))] := by
    unfold gatherGroups
    rw [List.foldlM_cons]
    simp only [List.foldlM_nil]
    unfold gatherStep rowUnit
    simp [pyInt, exc_bind_ok, exc_pure, updateAssoc]
  unfold prepare_gini_data
  rw [hg, exc_bind_ok]
  norm_num [buildTable, List.mapM_cons, List.mapM_nil, List.mapM.loop,
    pydiv, exc_bind_ok, exc_pure, mkRows]

/-- Concrete evaluation: the Gini computation on the empty table. -/
theorem eval_gini_nil :
    calculate_gini_coefficient [] = (0, ⟨0, 0, 0, [0], [0], [], []⟩) := by
  have h0 : pyRound4 0 = 0 := pyRound4_eq_self 0 0 (by norm_num)
  unfold calculate_gini_coefficient
  simp [List.insertionSort, cumFrom, giniLoop, h0]

/-- Concrete evaluation: the Gini computation on the one-row table. -/
theorem eval_gini_one :
    calculate_gini_coefficient [⟨1, 1, 100, 100, 1, 1, 1⟩] =
      (0, ⟨0, 10000, 10000, [0, 1], [0, 1],
        [⟨1, 1, 100, 100, 1, 1, 1⟩], [10000]⟩) := by
  have h0 : pyRound4 0 = 0 := pyRound4_eq_self 0 0 (by norm_num)
  have h4 : pyRound4 10000 = 10000 := pyRound4_eq_self 10000 100000000 (by norm_num)
  unfold calculate_gini_coefficient
  norm_num [List.insertionSort, List.orderedInsert, cumFrom, giniLoop, giniLoopRest,
    h0, h4]

/-- **C2 (counterexample)**: `generate_gini_report` is *not* free of
storage effects: with identical arguments (`"input.csv"`, no output
path) its result changes when the stored content at that path changes,
and when an output path is supplied it performs a write (the recorded
write list is exactly that path). -/
theorem report_touches_storage :
    generate_gini_report fsEmpty "input.csv" none ≠
      generate_gini_report fsOne "input.csv" none ∧
    Except.map Prod.snd (generate_gini_report fsOne "input.csv" (some "report.xlsx")) =
      Except.ok ["report.xlsx"] := by
  have hA : generate_gini_report fsEmpty "input.csv" none =
      Except.ok (⟨⟨0, 0, 0, 0, 0, 0⟩, 0, ⟨0, 0, 0, [0], [0], [], []⟩⟩, []) := by
    unfold generate_gini_report fsEmpty
    simp only [eval_stats_nil, eval_prepare_nil, eval_gini_nil, exc_bind_ok, exc_pure]
  have hB : ∀ out, generate_gini_report fsOne "input.csv" out =
      Except.ok (⟨⟨100, 100, 1, 0, 0, 0⟩, 0,
        ⟨0, 10000, 10000, [0, 1], [0, 1], [⟨1, 1, 100, 100, 1, 1, 1⟩], [10000]⟩⟩,
        match out with
        | some p => [p]
        | none => []) := by
    intro out
    unfold generate_gini_report fsOne
    simp only [eval_stats_one, eval_prepare_one, eval_gini_one, exc_bind_ok, exc_pure]
  constructor
  · rw [hA, hB none]
    intro h
    simp only [Except.ok.injEq, Prod.mk.injEq, GiniReport.mk.injEq, Stats.mk.injEq] at h
    exact absurd h.1.1.1 (by norm_num)
  · rw [hB (some "report.xlsx")]
    rfl

/-- **C2 (amended)**: the computational result of the report operation
is the pure composition of `calculate_basic_stats`, `prepare_gini_data`
and `calculate_gini_coefficient` over the in-memory rows parsed from the
input file, and it depends on the store only through the content at the
input path; but `generate_gini_report` itself reads that content and,
when an output path is given, writes the Excel report there. -/
theorem report_is_pure_composition (fs : FileStore) (input : String)
    (out : Option String) (hdr : RawRow) (data : List RawRow)
    (st : Stats) (t : List SRow)
    (hread : fs input = some (hdr :: data))
    (hstats : calculate_basic_stats data = Except.ok st)
    (htable : prepare_gini_data data = Except.ok t) :
    generate_gini_report fs input out =
      Except.ok
        (⟨st, (calculate_gini_coefficient t).1, (calculate_gini_coefficient t).2⟩,
         match out with
         | some p => [p]
         | none => []) ∧
    (∀ fs₂ : FileStore, ∀ input₂ : String, fs₂ input₂ = fs input →
      generate_gini_report fs₂ input₂ out = generate_gini_report fs input out) := by
  constructor
  · unfold generate_gini_report
    rw [hread]
    simp only [hstats, htable]
    rfl
  · intro fs₂ input₂ h₂
    unfold generate_gini_report
    rw [h₂]

/-- Witness for `report_is_pure_composition` on the one-unit store. -/
theorem report_is_pure_composition_witness :
    generate_gini_report fsOne "input.csv" none =
      Except.ok
        (⟨⟨100, 100, 1, 0, 0, 0⟩,
          (calculate_gini_coefficient [⟨1, 1, 100, 100, 1, 1, 1⟩]).1,
          (calculate_gini_coefficient [⟨1, 1, 100, 100, 1, 1, 1⟩]).2⟩,
         []) :=
  (report_is_pure_composition fsOne "input.csv" none rowHeader [rowUnit]
    ⟨100, 100, 1, 0, 0, 0⟩ [⟨1, 1, 100, 100, 1, 1, 1⟩]
    rfl eval_stats_one eval_prepare_one).1

/-- **C9**: a service-level cell that parses to the integer 0 but is not
the literal `"0"` (such as `"00"` or `"-0"`) is classified *served* by
the statistics loop — its population is added to `popu_valid` (and its
level 0 to `total_gather`) — while the grouping loop assigns it to no
group; and the two loops agree on the served/unserved classification of
every row exactly when every level cell that parses to 0 is the literal
`"0"`. -/
theorem zero_literal_classification (pop : ℚ) (c : Cell)
    (hparse : pyInt c = Except.ok 0) (hlit : c ≠ Cell.lit0) :
    (statsLoop [⟨pop, Cell.lit0, Cell.lit0, Cell.lit0, c⟩] =
       Except.ok ⟨pop, pop, 0, 0, 0, 0⟩ ∧
     gatherGroups [⟨pop, Cell.lit0, Cell.lit0, Cell.lit0, c⟩] = Except.ok []) ∧
    (∀ data : List RawRow,
      (∀ r ∈ data, (strNe0 r.level = true ↔ pyInt r.level ≠ Except.ok 0)) ↔
      (∀ r ∈ data, pyInt r.level = Except.ok 0 → r.level = Cell.lit0)) := by
  constructor
  · have hc : c = Cell.num 0 := by
      cases c with
      | lit0 => exact absurd rfl hlit
      | num z =>
        have : z = 0 := by
          simpa [pyInt] using hparse
        rw [this]
      | bad => simp [pyInt] at hparse
    subst hc
    constructor
    · unfold statsLoop
      rw [List.foldlM_cons]
      simp only [List.foldlM_nil]
      unfold statsStep
      simp [strNe0, pyInt, exc_bind_ok, exc_pure]
    · unfold gatherGroups
      rw [List.foldlM_cons]
      simp only [List.foldlM_nil]
      unfold gatherStep
      simp [pyInt, exc_bind_ok, exc_pure]
  · intro data
    constructor
    · intro hag r hr h0
      have h := (hag r hr).not_left
      by_contra hne
      have hs : strNe0 r.level = true := by
        simp [strNe0, hne]
      rw [hag r hr] at hs
      exact hs h0
    · intro hcan r hr
      constructor
      · intro hs h0
        have := hcan r hr h0
        rw [this] at hs
        simp [strNe0] at hs
      · intro hne
        have : r.level ≠ Cell.lit0 := by
          intro he
          rw [he] at hne
          exact hne rfl
        simp [strNe0, this]

/-- Witness for `zero_literal_classification` at the cell `"00"`
(modelled as `Cell.num 0`) with population 7. -/
theorem zero_literal_classification_witness :
    statsLoop [⟨7, Cell.lit0, Cell.lit0, Cell.lit0, Cell.num 0⟩] =
      Except.ok ⟨7, 7, 0, 0, 0, 0⟩ ∧
    gatherGroups [⟨7, Cell.lit0, Cell.lit0, Cell.lit0, Cell.num 0⟩] = Except.ok [] :=
  (zero_literal_classification 7 (Cell.num 0) rfl (by decide)).1

/-- One statistics-loop step on a canonical unit row: the population
always accumulates; the valid population, gather total and gated mode
counts accumulate only for served units (and the mode gates additionally
require a nonzero mode count). -/
theorem statsStep_unit (acc : StatsAcc) (u : AnalysisUnit) :
    statsStep acc (toRow u) = Except.ok
      ⟨acc.popu_all + u.population,
       acc.popu_valid + (if 0 < u.service_level then u.population else 0),
       acc.total_gather + (if 0 < u.service_level then (u.service_level : ℤ) else 0),
       acc.bus_count +
         (if 0 < u.service_level ∧ u.bus ≠ 0 then (u.bus : ℤ) else 0),
       acc.railway_count +
         (if 0 < u.service_level ∧ u.rail ≠ 0 then (u.rail : ℤ) else 0),
       acc.tram_count +
         (if 0 < u.service_level ∧ u.tram ≠ 0 then (u.tram : ℤ) else 0)⟩ := by
  unfold statsStep toRow cellOf
  by_cases hl : u.service_level = 0
  · simp [hl, strNe0, exc_pure]
  · have hl' : 0 < u.service_level := Nat.pos_of_ne_zero hl
    simp only [hl, if_false, if_pos hl']
    by_cases hb : u.bus = 0 <;> by_cases hr : u.rail = 0 <;> by_cases ht : u.tram = 0 <;>
      simp [hb, hr, ht, hl, hl', strNe0, pyInt, exc_bind_ok, exc_pure]

/-- The statistics loop over canonical unit rows, with an arbitrary
starting accumulator. -/
theorem statsLoop_units (units : List AnalysisUnit) (acc : StatsAcc) :
    (units.map toRow).foldlM statsStep acc = Except.ok
      ⟨acc.popu_all + (units.map (fun u => u.population)).sum,
       acc.popu_valid +
         (((units.filter (fun u => decide (0 < u.service_level))).map
           (fun u => u.population)).sum),
       acc.total_gather +
         (((units.filter (fun u => decide (0 < u.service_level))).map
           (fun u => (u.service_level : ℤ))).sum),
       acc.bus_count +
         (((units.filter (fun u =>
             decide (0 < u.service_level) && decide (u.bus ≠ 0))).map
           (fun u => (u.bus : ℤ))).sum),
       acc.railway_count +
         (((units.filter (fun u =>
             decide (0 < u.service_level) && decide (u.rail ≠ 0))).map
           (fun u => (u.rail : ℤ))).sum),
       acc.tram_count +
         (((units.filter (fun u =>
             decide (0 < u.service_level) && decide (u.tram ≠ 0))).map
           (fun u => (u.tram : ℤ))).sum)⟩ := by
  induction units generalizing acc with
  | nil =>
    simp only [List.map_nil, List.foldlM_nil, List.filter_nil, List.sum_nil, exc_pure]
    rcases acc with ⟨a, b, c, d, e, f⟩
    norm_num
  | cons u rest ih =>
    simp only [List.map_cons, List.foldlM_cons, statsStep_unit, exc_bind_ok]
    rw [ih]
    simp only [List.filter_cons, List.sum_cons, List.map_cons]
    by_cases hl : 0 < u.service_level <;>
      by_cases hb : u.bus = 0 <;> by_cases hr : u.rail = 0 <;> by_cases ht : u.tram = 0 <;>
        simp [hl, hb, hr, ht] <;> and_intros <;> first
          | trivial
          | ring

/-- **C7**: on any unit collection, `calculate_basic_stats` never raises
and returns exactly: per-mode totals summed only over served units
(`service_level > 0`) and gated on the unit's mode count being nonzero;
each mode ratio divided by the sum of `service_level` values (not the
sum of mode counts), with every division returning 0 on a zero
denominator; all rounded to 4 digits. -/
theorem basic_stats_characterization (units : List AnalysisUnit) :
    calculate_basic_stats (units.map toRow) = Except.ok
      ⟨pyRound4 ((units.map (fun u => u.population)).sum),
       pyRound4 (((units.filter (fun u => decide (0 < u.service_level))).map
         (fun u => u.population)).sum),
       pyRound4 (if (units.map (fun u => u.population)).sum > 0 then
           (((units.filter (fun u => decide (0 < u.service_level))).map
             (fun u => u.population)).sum) /
             ((units.map (fun u => u.population)).sum)
         else 0),
       pyRound4 (if ((((units.filter (fun u => decide (0 < u.service_level))).map
             (fun u => (u.service_level : ℤ))).sum : ℤ) : ℚ) > 0 then
           ((((units.filter (fun u =>
               decide (0 < u.service_level) && decide (u.bus ≠ 0))).map
             (fun u => (u.bus : ℤ))).sum : ℚ)) /
             (((((units.filter (fun u => decide (0 < u.service_level))).map
               (fun u => (u.service_level : ℤ))).sum : ℤ) : ℚ))
         else 0),
       pyRound4 (if ((((units.filter (fun u => decide (0 < u.service_level))).map
             (fun u => (u.service_level : ℤ))).sum : ℤ) : ℚ) > 0 then
           ((((units.filter (fun u =>
               decide (0 < u.service_level) && decide (u.rail ≠ 0))).map
             (fun u => (u.rail : ℤ))).sum : ℚ)) /
             (((((units.filter (fun u => decide (0 < u.service_level))).map
               (fun u => (u.service_level : ℤ))).sum : ℤ) : ℚ))
         else 0),
       pyRound4 (if ((((units.filter (fun u => decide (0 < u.service_level))).map
             (fun u => (u.service_level : ℤ))).sum : ℤ) : ℚ) > 0 then
           ((((units.filter (fun u =>
               decide (0 < u.service_level) && decide (u.tram ≠ 0))).map
             (fun u => (u.tram : ℤ))).sum : ℚ)) /
             (((((units.filter (fun u => decide (0 < u.service_level))).map
               (fun u => (u.service_level : ℤ))).sum : ℤ) : ℚ))
         else 0)⟩ := by
  unfold calculate_basic_stats statsLoop
  rw [statsLoop_units units ⟨0, 0, 0, 0, 0, 0⟩, exc_bind_ok]
  norm_num [exc_pure]

/-- Inversion of a successful `Except` bind. -/
theorem exc_bind_inv {ε α β : Type} {a : Except ε α} {f : α → Except ε β} {v : β}
    (h : (a >>= f) = Except.ok v) :
    ∃ w, a = Except.ok w ∧ f w = Except.ok v := by
  cases a with
  | ok w => exact ⟨w, rfl, h⟩
  | error e =>
    rw [exc_bind_error] at h
    exact Except.noConfusion h

/-- Inversion of a successful `mapM` of Python divisions: every element
was divided by `c`, and `c` was nonzero unless there was nothing to
divide. -/
theorem mapM_pydiv_inv {xs : List ℚ} {c : ℚ} {ys : List ℚ}
    (h : xs.mapM (fun x => pydiv x c) = Except.ok ys) :
    ys = xs.map (fun x => x / c) ∧ (xs = [] ∨ c ≠ 0) := by
  induction xs generalizing ys with
  | nil =>
    rw [List.mapM_nil, exc_pure] at h
    exact ⟨(Except.ok.inj h).symm, Or.inl rfl⟩
  | cons x xs ih =>
    rw [List.mapM_cons] at h
    obtain ⟨w, hw, hrest⟩ := exc_bind_inv h
    have hc : c ≠ 0 := by
      intro hc0
      rw [hc0] at hw
      simp [pydiv] at hw
    have hwx : w = x / c := by
      unfold pydiv at hw
      rw [if_neg hc] at hw
      exact (Except.ok.inj hw).symm
    obtain ⟨ws, hws, hpure⟩ := exc_bind_inv hrest
    rw [exc_pure] at hpure
    obtain ⟨hys1, _⟩ := ih hws
    refine ⟨?_, Or.inr hc⟩
    rw [← Except.ok.inj hpure, hwx, hys1, List.map_cons]

/-- `buildTable` on the empty group list returns the empty table. -/
theorem buildTable_nil : buildTable [] = Except.ok [] := by
  simp [buildTable, List.mapM_nil, List.mapM.loop, exc_bind_ok, exc_pure, mkRows]

/-- The column contents of `mkRows` applied to three mapped copies of
the group list. -/
theorem mkRows_cols (gs : List (ℤ × ℚ)) (f g k : (ℤ × ℚ) → ℚ) (i : ℕ) :
    (mkRows i gs (gs.map f) (gs.map g) (gs.map k)).map (fun r => r.population) =
      gs.map (fun x => x.2) ∧
    (mkRows i gs (gs.map f) (gs.map g) (gs.map k)).map (fun r => r.weighted) =
      gs.map (fun x => x.2 * (x.1 : ℚ)) ∧
    (mkRows i gs (gs.map f) (gs.map g) (gs.map k)).map (fun r => r.pop_ratio) =
      gs.map f ∧
    (mkRows i gs (gs.map f) (gs.map g) (gs.map k)).map (fun r => r.weight_ratio) =
      gs.map g ∧
    (mkRows i gs (gs.map f) (gs.map g) (gs.map k)).length = gs.length := by
  induction gs generalizing i with
  | nil => simp [mkRows]
  | cons hd tl ih =>
    rcases hd with ⟨l, p⟩
    simp only [List.map_cons, mkRows, List.length_cons]
    obtain ⟨h1, h2, h3, h4, h5⟩ := ih (i + 1)
    exact ⟨by rw [h1], by rw [h2], by rw [h3], by rw [h4], by rw [h5]⟩

/-- Each row of `mkRows` over three mapped copies of the group list
carries its group's level, population, weighted population and the
three mapped ratio values. -/
theorem mkRows_mem {gs : List (ℤ × ℚ)} {f g k : (ℤ × ℚ) → ℚ} {i : ℕ} {r : SRow}
    (hr : r ∈ mkRows i gs (gs.map f) (gs.map g) (gs.map k)) :
    ∃ x ∈ gs, r.level = x.1 ∧ r.population = x.2 ∧ r.weighted = x.2 * (x.1 : ℚ) ∧
      r.pop_ratio = f x ∧ r.weight_ratio = g x ∧ r.ratio = k x := by
  induction gs generalizing i with
  | nil => simp [mkRows] at hr
  | cons hd tl ih =>
    rcases hd with ⟨l, p⟩
    simp only [List.map_cons, mkRows, List.mem_cons] at hr
    rcases hr with hr | hr
    · exact ⟨(l, p), List.mem_cons_self _ _, by simp [hr]⟩
    · obtain ⟨x, hx, hprops⟩ := ih hr
      exact ⟨x, List.mem_cons_of_mem _ hx, hprops⟩

/-- Characterization of a successful `buildTable`: the resulting table
is `mkRows` over the per-group ratio columns, and unless the group list
is empty both totals are nonzero (otherwise the unguarded divisions of
gini.py lines 97-98 would have raised). -/
theorem buildTable_ok {gs : List (ℤ × ℚ)} {t : List SRow}
    (h : buildTable gs = Except.ok t) :
    t = mkRows 1 gs
        (gs.map (fun x => x.2 / (gs.map (fun y => y.2)).sum))
        (gs.map (fun x => (x.2 * (x.1 : ℚ)) / (gs.map (fun y => y.2 * (y.1 : ℚ))).sum))
        (gs.map (fun x =>
          if x.2 / (gs.map (fun y => y.2)).sum > 0 then
            ((x.2 * (x.1 : ℚ)) / (gs.map (fun y => y.2 * (y.1 : ℚ))).sum) /
              (x.2 / (gs.map (fun y => y.2)).sum)
          else 0)) ∧
    (gs = [] ∨ ((gs.map (fun y => y.2)).sum ≠ 0 ∧
      (gs.map (fun y => y.2 * (y.1 : ℚ))).sum ≠ 0)) := by
  unfold buildTable at h
  obtain ⟨prs, hprs, h2⟩ := exc_bind_inv h
  obtain ⟨wrs, hwrs, h3⟩ := exc_bind_inv h2
  rw [exc_pure] at h3
  obtain ⟨hprs_eq, hpcase⟩ := mapM_pydiv_inv hprs
  obtain ⟨hwrs_eq, hwcase⟩ := mapM_pydiv_inv hwrs
  have ht : t = mkRows 1 gs prs wrs
      ((wrs.zip prs).map (fun z => if z.2 > 0 then z.1 / z.2 else 0)) :=
    (Except.ok.inj h3).symm
  rw [hprs_eq, hwrs_eq, List.map_map, List.map_map] at ht
  rw [List.zip_map', List.map_map] at ht
  constructor
  · rw [ht]
    rfl
  · rcases hpcase with hnil | hp
    · exact Or.inl (List.map_eq_nil_iff.mp hnil)
    · rcases hwcase with hnil | hw
      · exact Or.inl (List.map_eq_nil_iff.mp hnil)
      · exact Or.inr ⟨hp, hw⟩

/-- Sums distribute over a common divisor, list version. -/
theorem sum_map_div (xs : List ℚ) (c : ℚ) :
    (xs.map (fun x => x / c)).sum = xs.sum / c := by
  induction xs with
  | nil => simp
  | cons x xs ih => simp [ih, add_div]

/-- **C6 (counterexample)**: the unit with population 0 and service
level 1 yields one ServiceLevelGroup, yet `prepare_gini_data` raises
`ZeroDivisionError` (gini.py line 97 divides by the zero total
population), so no SummaryRow set with normalized shares is produced. -/
theorem share_normalization_counterexample :
    gatherGroups [rowZeroPop] = Except.ok [(1, 0)] ∧
    prepare_gini_data [rowZeroPop] = Except.error "ZeroDivisionError" := by
  have hg : gatherGroups [rowZeroPop] = Except.ok [((1 : ℤ), (0 : ℚ))] := by
    unfold gatherGroups
    rw [List.foldlM_cons]
    simp only [List.foldlM_nil]
    unfold gatherStep rowZeroPop
    simp [pyInt, exc_bind_ok, exc_pure, updateAssoc]
  refine ⟨hg, ?_⟩
  unfold prepare_gini_data
  rw [hg, exc_bind_ok]
  norm_num [buildTable, List.mapM_cons, List.mapM_nil, List.mapM.loop,
    pydiv, exc_bind_ok, exc_bind_error, exc_pure]

/-- **C6 (amended)**: whenever `prepare_gini_data` succeeds and produces
at least one SummaryRow (which requires the total served population and
total weighted population to be nonzero — with a served group of zero
total population the operation raises `ZeroDivisionError` instead, see
the counterexample), the population shares and the weighted shares each
sum to exactly 1. -/
theorem share_normalization (data : List RawRow) (t : List SRow)
    (h : prepare_gini_data data = Except.ok t) (hne : t ≠ []) :
    (t.map (fun r => r.pop_ratio)).sum = 1 ∧
    (t.map (fun r => r.weight_ratio)).sum = 1 := by
  unfold prepare_gini_data at h
  obtain ⟨gs, hgs, hbt⟩ := exc_bind_inv h
  obtain ⟨ht, hcase⟩ := buildTable_ok hbt
  have hgs_ne : gs ≠ [] := by
    intro h0
    rw [h0] at ht
    simp [mkRows] at ht
    exact hne ht
  have htot : (gs.map (fun y => y.2)).sum ≠ 0 ∧
      (gs.map (fun y => y.2 * (y.1 : ℚ))).sum ≠ 0 := by
    rcases hcase with h0 | hok
    · exact absurd h0 hgs_ne
    · exact hok
  obtain ⟨hcol1, hcol2, hcol3, hcol4, _⟩ := mkRows_cols gs
    (fun x => x.2 / (gs.map (fun y => y.2)).sum)
    (fun x => (x.2 * (x.1 : ℚ)) / (gs.map (fun y => y.2 * (y.1 : ℚ))).sum)
    (fun x =>
      if x.2 / (gs.map (fun y => y.2)).sum > 0 then
        ((x.2 * (x.1 : ℚ)) / (gs.map (fun y => y.2 * (y.1 : ℚ))).sum) /
          (x.2 / (gs.map (fun y => y.2)).sum)
      else 0) 1
  constructor
  · rw [ht, hcol3]
    have : gs.map (fun x => x.2 / (gs.map (fun y => y.2)).sum) =
        (gs.map (fun y => y.2)).map (fun x => x / (gs.map (fun y => y.2)).sum) := by
      rw [List.map_map]
      rfl
    rw [this, sum_map_div, div_self htot.1]
  · rw [ht, hcol4]
    have : gs.map (fun x => (x.2 * (x.1 : ℚ)) / (gs.map (fun y => y.2 * (y.1 : ℚ))).sum) =
        (gs.map (fun y => y.2 * (y.1 : ℚ))).map
          (fun x => x / (gs.map (fun y => y.2 * (y.1 : ℚ))).sum) := by
      rw [List.map_map]
      rfl
    rw [this, sum_map_div, div_self htot.2]

/-- Witness for `share_normalization` on the one-unit table. -/
theorem share_normalization_witness :
    (([⟨1, 1, 100, 100, 1, 1, 1⟩] : List SRow).map (fun r => r.pop_ratio)).sum = 1 ∧
    (([⟨1, 1, 100, 100, 1, 1, 1⟩] : List SRow).map (fun r => r.weight_ratio)).sum = 1 :=
  share_normalization [rowUnit] [⟨1, 1, 100, 100, 1, 1, 1⟩] eval_prepare_one
    (by simp)

/-- The grouping loop ignores every unserved canonical unit. -/
theorem gather_unserved (units : List AnalysisUnit)
    (h : ∀ u ∈ units, u.service_level = 0) (d : List (ℤ × ℚ)) :
    (units.map toRow).foldlM gatherStep d = Except.ok d := by
  induction units generalizing d with
  | nil => simp [List.foldlM_nil, exc_pure]
  | cons u rest ih =>
    have hu : u.service_level = 0 := h u (List.mem_cons_self _ _)
    rw [List.map_cons, List.foldlM_cons]
    have hstep : gatherStep d (toRow u) = Except.ok d := by
      unfold gatherStep toRow cellOf
      simp [hu, pyInt, exc_bind_ok, exc_pure]
    rw [hstep, exc_bind_ok]
    exact ih (fun v hv => h v (List.mem_cons_of_mem _ hv)) d

/-- Sorting the summary table does not change column sums. -/
theorem sorted_map_sum (t : List SRow) (f : SRow → ℚ) :
    ((List.insertionSort byRatio t).map f).sum = (t.map f).sum :=
  ((List.perm_insertionSort byRatio t).map f).sum_eq

/-- **C1 (amended)**: the degenerate equity inputs are handled as
follows — `calculate_basic_stats` never raises on unit inputs; with no
served unit, `prepare_gini_data` returns the empty table and the
coefficient of the empty table is 0; the coefficient is 0 whenever
`P × T = 0`; and a single group always yields coefficient 0.  However —
contrary to the original claim — `prepare_gini_data` *raises*
`ZeroDivisionError` when some unit is served but the total served
population is zero (see the counterexample). -/
theorem degenerate_inputs (units : List AnalysisUnit) (t : List SRow) (r : SRow) :
    (∃ st, calculate_basic_stats (units.map toRow) = Except.ok st) ∧
    ((∀ u ∈ units, u.service_level = 0) →
      prepare_gini_data (units.map toRow) = Except.ok [] ∧
      (calculate_gini_coefficient []).1 = 0) ∧
    ((t.map (fun x => x.population)).sum * (t.map (fun x => x.weighted)).sum = 0 →
      (calculate_gini_coefficient t).1 = 0) ∧
    (calculate_gini_coefficient [r]).1 = 0 := by
  refine ⟨?_, ?_, ?_, ?_⟩
  · unfold calculate_basic_stats statsLoop
    rw [statsLoop_units units ⟨0, 0, 0, 0, 0, 0⟩, exc_bind_ok]
    exact ⟨_, rfl⟩
  · intro huns
    constructor
    · unfold prepare_gini_data gatherGroups
      rw [gather_unserved units huns [], exc_bind_ok]
      exact buildTable_nil
    · rw [eval_gini_nil]
  · intro hPT
    unfold calculate_gini_coefficient
    simp only [sorted_map_sum]
    rw [hPT]
    norm_num
  · unfold calculate_gini_coefficient
    have hsort : List.insertionSort byRatio [r] = [r] := by
      simp [List.insertionSort]
    rw [hsort]
    simp only [List.map_cons, List.map_nil, List.sum_cons, List.sum_nil, giniLoop,
      giniLoopRest, add_zero]
    by_cases h : r.population * r.weighted > 0
    · rw [if_pos h]
      have hne : r.population * r.weighted ≠ 0 := ne_of_gt h
      have hcomm : r.weighted * r.population = r.population * r.weighted := mul_comm _ _
      rw [hcomm, div_self hne]
      ring
    · rw [if_neg h]

/-- Witness for `degenerate_inputs` at a single unserved unit, the empty
table, and an arbitrary one-row table. -/
theorem degenerate_inputs_witness :
    (∃ st, calculate_basic_stats (List.map toRow [⟨5, 0, 0, 0, 0⟩]) = Except.ok st) ∧
    (prepare_gini_data (List.map toRow [⟨5, 0, 0, 0, 0⟩]) = Except.ok [] ∧
      (calculate_gini_coefficient []).1 = 0) ∧
    (calculate_gini_coefficient [⟨1, 2, 3, 4, 5, 6, 7⟩]).1 = 0 := by
  have h := degenerate_inputs [⟨5, 0, 0, 0, 0⟩] [] ⟨1, 2, 3, 4, 5, 6, 7⟩
  exact ⟨h.1, h.2.1 (by simp), h.2.2.2⟩

/-- **C1 (counterexample)**: on the single unit with population 0 and
service level 1 — a degenerate input in the claim's sense —
`calculate_basic_stats` returns a defined zero result but
`prepare_gini_data` raises `ZeroDivisionError` (line 97 of gini.py
divides by the zero total population), contradicting the claim's
"returns without error". -/
theorem degenerate_inputs_counterexample :
    calculate_basic_stats [rowZeroPop] = Except.ok ⟨0, 0, 0, 0, 0, 0⟩ ∧
    prepare_gini_data [rowZeroPop] = Except.error "ZeroDivisionError" := by
  constructor
  · have h0 : pyRound4 0 = 0 := pyRound4_eq_self 0 0 (by norm_num)
    have hloop : statsLoop [rowZeroPop] = Except.ok ⟨0, 0, 1, 0, 0, 0⟩ := by
      unfold statsLoop
      rw [List.foldlM_cons]
      simp only [List.foldlM_nil]
      unfold statsStep rowZeroPop
      simp [strNe0, pyInt, exc_bind_ok, exc_pure]
    unfold calculate_basic_stats
    rw [hloop, exc_bind_ok]
    norm_num [exc_pure, h0]
  · have hg : gatherGroups [rowZeroPop] = Except.ok [((1 : ℤ), (0 : ℚ))] := by
      unfold gatherGroups
      rw [List.foldlM_cons]
      simp only [List.foldlM_nil]
      unfold gatherStep rowZeroPop
      simp [pyInt, exc_bind_ok, exc_pure, updateAssoc]
    unfold prepare_gini_data
    rw [hg, exc_bind_ok]
    norm_num [buildTable, List.mapM_cons, List.mapM_nil, List.mapM.loop,
      pydiv, exc_bind_ok, exc_bind_error, exc_pure]

/-- Shifting the starting cumulative weight of the Gini loop adds twice
that weight times the remaining population. -/
theorem giniLoopRest_shift (xs : List SRow) (cw : ℚ) :
    (giniLoopRest cw xs).1 =
      (giniLoopRest 0 xs).1 + 2 * cw * (xs.map (fun r => r.population)).sum := by
  induction xs generalizing cw with
  | nil => simp [giniLoopRest]
  | cons x rest ih =>
    simp only [giniLoopRest, List.map_cons, List.sum_cons]
    rw [ih (cw + x.weighted), ih (0 + x.weighted)]
    ring

/-- The full Gini loop agrees with the tail loop started at 0. -/
theorem giniLoop_eq_rest (xs : List SRow) :
    (giniLoop xs).1 = (giniLoopRest 0 xs).1 := by
  cases xs with
  | nil => rfl
  | cons x rest => simp [giniLoop, giniLoopRest]

/-- The Gini loop accumulates a nonnegative sum on nonnegative data. -/
theorem giniLoopRest_nonneg (xs : List SRow) (cw : ℚ) (hcw : 0 ≤ cw)
    (hx : ∀ x ∈ xs, 0 ≤ x.population ∧ 0 ≤ x.weighted) :
    0 ≤ (giniLoopRest cw xs).1 := by
  induction xs generalizing cw with
  | nil => simp [giniLoopRest]
  | cons x rest ih =>
    simp only [giniLoopRest]
    have hxh := hx x (List.mem_cons_self _ _)
    have h1 : 0 ≤ (cw + (cw + x.weighted)) * x.population :=
      mul_nonneg (by linarith [hxh.2]) hxh.1
    have h2 : 0 ≤ (giniLoopRest (cw + x.weighted) rest).1 :=
      ih (cw + x.weighted) (by linarith [hxh.2])
        (fun y hy => hx y (List.mem_cons_of_mem _ hy))
    exact add_nonneg h1 h2

/-- A head row cross-dominated by every later row also dominates the
column sums. -/
theorem head_cross_sum (a : SRow) (xs : List SRow)
    (h : ∀ x ∈ xs, a.weighted * x.population ≤ a.population * x.weighted) :
    a.weighted * (xs.map (fun r => r.population)).sum ≤
      a.population * (xs.map (fun r => r.weighted)).sum := by
  induction xs with
  | nil => simp
  | cons x rest ih =>
    simp only [List.map_cons, List.sum_cons, mul_add]
    exact add_le_add (h x (List.mem_cons_self _ _))
      (ih (fun y hy => h y (List.mem_cons_of_mem _ hy)))

/-- The trapezoid accumulation over a cross-sorted nonnegative table is
bounded by the product of the population and weighted totals. -/
theorem giniLoopRest_le (xs : List SRow)
    (hpw : List.Pairwise
      (fun a b => a.weighted * b.population ≤ a.population * b.weighted) xs)
    (hx : ∀ x ∈ xs, 0 ≤ x.population ∧ 0 ≤ x.weighted) :
    (giniLoopRest 0 xs).1 ≤
      (xs.map (fun r => r.population)).sum * (xs.map (fun r => r.weighted)).sum := by
  induction xs with
  | nil => simp [giniLoopRest]
  | cons a rest ih =>
    rw [List.pairwise_cons] at hpw
    have hxh := hx a (List.mem_cons_self _ _)
    have hxr : ∀ y ∈ rest, 0 ≤ y.population ∧ 0 ≤ y.weighted :=
      fun y hy => hx y (List.mem_cons_of_mem _ hy)
    have hih := ih hpw.2 hxr
    have hhead := head_cross_sum a rest hpw.1
    simp only [giniLoopRest, List.map_cons, List.sum_cons, zero_add]
    rw [giniLoopRest_shift]
    nlinarith [hih, hhead]

/-- **C5**: for every non-empty SummaryRow table produced by
`prepare_gini_data` whose populations are nonnegative and whose service
levels are positive, the Gini coefficient computed by sorting rows by
advantage ratio and accumulating `S = Σ (W_{i-1} + W_i) × population_i`
satisfies `0 ≤ 1 − S/(P×T) ≤ 1`. -/
theorem gini_bounds (data : List RawRow) (t : List SRow)
    (h : prepare_gini_data data = Except.ok t) (hne : t ≠ [])
    (hpop : ∀ r ∈ t, 0 ≤ r.population) (hlvl : ∀ r ∈ t, 1 ≤ r.level) :
    0 ≤ (calculate_gini_coefficient t).1 ∧ (calculate_gini_coefficient t).1 ≤ 1 := by
  unfold prepare_gini_data at h
  obtain ⟨gs, hgs, hbt⟩ := exc_bind_inv h
  obtain ⟨ht, hcase⟩ := buildTable_ok hbt
  have hgs_ne : gs ≠ [] := by
    intro h0
    rw [h0] at ht
    simp [mkRows] at ht
    exact hne ht
  have htot : (gs.map (fun y => y.2)).sum ≠ 0 ∧
      (gs.map (fun y => y.2 * (y.1 : ℚ))).sum ≠ 0 := by
    rcases hcase with h0 | hok
    · exact absurd h0 hgs_ne
    · exact hok
  obtain ⟨hc1, hc2, hc3, hc4, hlen⟩ := mkRows_cols gs
    (fun x => x.2 / (gs.map (fun y => y.2)).sum)
    (fun x => (x.2 * (x.1 : ℚ)) / (gs.map (fun y => y.2 * (y.1 : ℚ))).sum)
    (fun x =>
      if x.2 / (gs.map (fun y => y.2)).sum > 0 then
        ((x.2 * (x.1 : ℚ)) / (gs.map (fun y => y.2 * (y.1 : ℚ))).sum) /
          (x.2 / (gs.map (fun y => y.2)).sum)
      else 0) 1
  have hPt : (t.map (fun r => r.population)).sum = (gs.map (fun y => y.2)).sum := by
    rw [ht, hc1]
  have hTt : (t.map (fun r => r.weighted)).sum =
      (gs.map (fun y => y.2 * (y.1 : ℚ))).sum := by
    rw [ht, hc2]
  have hrow : ∀ r ∈ t, r.weighted = r.population * (r.level : ℚ) ∧
      r.pop_ratio = r.population / (gs.map (fun y => y.2)).sum ∧
      r.weight_ratio = r.weighted / (gs.map (fun y => y.2 * (y.1 : ℚ))).sum ∧
      r.ratio = if r.pop_ratio > 0 then r.weight_ratio / r.pop_ratio else 0 := by
    intro r hr
    rw [ht] at hr
    obtain ⟨x, hxg, hx1, hx2, hx3, hx4, hx5, hx6⟩ := mkRows_mem hr
    refine ⟨?_, ?_, ?_, ?_⟩
    · rw [hx3, ← hx2, ← hx1]
    · rw [hx4, ← hx2]
    · rw [hx5, ← hx3]
    · rw [hx6, ← hx3, ← hx2]
      rw [hx4, ← hx2]
      rw [hx5, ← hx3]
  have hwnn : ∀ r ∈ t, 0 ≤ r.weighted := by
    intro r hr
    rw [(hrow r hr).1]
    have : (1 : ℚ) ≤ (r.level : ℚ) := by exact_mod_cast hlvl r hr
    exact mul_nonneg (hpop r hr) (by linarith)
  have hPnn : 0 ≤ (t.map (fun r => r.population)).sum := by
    apply List.sum_nonneg
    intro y hy
    rcases List.mem_map.mp hy with ⟨x, hx', rfl⟩
    exact hpop x hx'
  have hTnn : 0 ≤ (t.map (fun r => r.weighted)).sum := by
    apply List.sum_nonneg
    intro y hy
    rcases List.mem_map.mp hy with ⟨x, hx', rfl⟩
    exact hwnn x hx'
  have hPpos : 0 < (t.map (fun r => r.population)).sum := by
    rcases lt_or_eq_of_le hPnn with hlt | heq
    · exact hlt
    · exact absurd (hPt ▸ heq.symm) htot.1
  have hTpos : 0 < (t.map (fun r => r.weighted)).sum := by
    rcases lt_or_eq_of_le hTnn with hlt | heq
    · exact hlt
    · exact absurd (hTt ▸ heq.symm) htot.2
  have hPgs : 0 < (gs.map (fun y => y.2)).sum := hPt ▸ hPpos
  have hTgs : 0 < (gs.map (fun y => y.2 * (y.1 : ℚ))).sum := hTt ▸ hTpos
  have hmem : ∀ r ∈ List.insertionSort byRatio t, r ∈ t :=
    fun r hr => (List.perm_insertionSort byRatio t).mem_iff.mp hr
  have hsorted : List.Pairwise byRatio (List.insertionSort byRatio t) :=
    List.sorted_insertionSort byRatio t
  have hcross : List.Pairwise
      (fun a b => a.weighted * b.population ≤ a.population * b.weighted)
      (List.insertionSort byRatio t) := by
    refine hsorted.imp_of_mem ?_
    intro a b ha hb hab
    have hat := hmem a ha
    have hbt' := hmem b hb
    obtain ⟨fa1, fa2, fa3, fa4⟩ := hrow a hat
    obtain ⟨fb1, fb2, fb3, fb4⟩ := hrow b hbt'
    by_cases hpb : b.population = 0
    · have : b.weighted = 0 := by rw [fb1, hpb, zero_mul]
      rw [this, hpb, mul_zero, mul_zero]
    · by_cases hpa : a.population = 0
      · have : a.weighted = 0 := by rw [fa1, hpa, zero_mul]
        rw [this, hpa, zero_mul, zero_mul]
      · have hpa' : 0 < a.population :=
          lt_of_le_of_ne (hpop a hat) (Ne.symm hpa)
        have hpb' : 0 < b.population :=
          lt_of_le_of_ne (hpop b hbt') (Ne.symm hpb)
        have hra : a.pop_ratio > 0 := by
          rw [fa2]
          exact div_pos hpa' hPgs
        have hrb : b.pop_ratio > 0 := by
          rw [fb2]
          exact div_pos hpb' hPgs
        have hr : a.weight_ratio / a.pop_ratio ≤ b.weight_ratio / b.pop_ratio := by
          have h1 : a.ratio = a.weight_ratio / a.pop_ratio := by rw [fa4, if_pos hra]
          have h2 : b.ratio = b.weight_ratio / b.pop_ratio := by rw [fb4, if_pos hrb]
          rw [← h1, ← h2]
          exact hab
        rw [fa2, fa3, fb2, fb3] at hr
        rw [div_le_div_iff₀ (div_pos hpa' hPgs) (div_pos hpb' hPgs)] at hr
        rw [div_mul_div_comm, div_mul_div_comm] at hr
        rw [div_le_div_iff₀
          (mul_pos hTgs hPgs) (mul_pos hTgs hPgs)] at hr
        have h2 : (a.weighted * b.population) *
            ((gs.map (fun y => y.2 * (y.1 : ℚ))).sum * (gs.map (fun y => y.2)).sum) ≤
            (a.population * b.weighted) *
            ((gs.map (fun y => y.2 * (y.1 : ℚ))).sum * (gs.map (fun y => y.2)).sum) := by
          nlinarith [hr]
        exact le_of_mul_le_mul_right h2 (mul_pos hTgs hPgs)
  have hxs : ∀ x ∈ List.insertionSort byRatio t,
      0 ≤ x.population ∧ 0 ≤ x.weighted :=
    fun x hx' => ⟨hpop x (hmem x hx'), hwnn x (hmem x hx')⟩
  have hS0 : 0 ≤ (giniLoop (List.insertionSort byRatio t)).1 := by
    rw [giniLoop_eq_rest]
    exact giniLoopRest_nonneg _ 0 le_rfl hxs
  have hS1 : (giniLoop (List.insertionSort byRatio t)).1 ≤
      (t.map (fun r => r.population)).sum * (t.map (fun r => r.weighted)).sum := by
    rw [giniLoop_eq_rest]
    have := giniLoopRest_le _ hcross hxs
    rwa [sorted_map_sum, sorted_map_sum] at this
  have hcoef : (calculate_gini_coefficient t).1 =
      if ((List.insertionSort byRatio t).map (fun r => r.population)).sum *
          ((List.insertionSort byRatio t).map (fun r => r.weighted)).sum > 0 then
        1 - (giniLoop (List.insertionSort byRatio t)).1 /
          (((List.insertionSort byRatio t).map (fun r => r.population)).sum *
            ((List.insertionSort byRatio t).map (fun r => r.weighted)).sum)
      else 0 := rfl
  rw [hcoef, sorted_map_sum, sorted_map_sum]
  rw [if_pos (mul_pos hPpos hTpos)]
  have hdiv0 : 0 ≤ (giniLoop (List.insertionSort byRatio t)).1 /
      ((t.map (fun r => r.population)).sum * (t.map (fun r => r.weighted)).sum) :=
    div_nonneg hS0 (le_of_lt (mul_pos hPpos hTpos))
  have hdiv1 : (giniLoop (List.insertionSort byRatio t)).1 /
      ((t.map (fun r => r.population)).sum * (t.map (fun r => r.weighted)).sum) ≤ 1 :=
    (div_le_one (mul_pos hPpos hTpos)).mpr hS1
  constructor
  · linarith
  · linarith

/-- Witness for `gini_bounds` on the one-unit table. -/
theorem gini_bounds_witness :
    0 ≤ (calculate_gini_coefficient [⟨1, 1, 100, 100, 1, 1, 1⟩]).1 ∧
    (calculate_gini_coefficient [⟨1, 1, 100, 100, 1, 1, 1⟩]).1 ≤ 1 := by
  refine gini_bounds [rowUnit] [⟨1, 1, 100, 100, 1, 1, 1⟩] eval_prepare_one
    (by simp) ?_ ?_
  · intro r hr
    simp only [List.mem_singleton] at hr
    rw [hr]
    norm_num
  · intro r hr
    simp only [List.mem_singleton] at hr
    rw [hr]
